import Mathlib

/-!
Verification of the signature-based file carving and recovery engine of the
forensic-recovery-tool repository.  Bytes are modelled as `Nat` values below
256, byte strings as `List Nat`.  The definitions are shallow embeddings of
the Python functions in `src/tools/android_adb_tool.py` and
`src/tools/universal_forensic_tool.py`.
-/

/-- `matchAtB data sig i` models the Python test "`data[i:].startswith(sig)`":
the signature occurs in `data` at offset `i`. -/
def matchAtB (data sig : List Nat) (i : Nat) : Bool :=
  sig.isPrefixOf (data.drop i)

/-- One left-to-right pass collecting every offset (from index `i` on) at
which `sig` occurs in the remaining buffer. -/
def occAux (sig : List Nat) : List Nat → Nat → List Nat
  | [], _ => []
  | d :: ds, i =>
    if sig.isPrefixOf (d :: ds) then i :: occAux sig ds (i + 1)
    else occAux sig ds (i + 1)

/-- All offsets at which `sig` occurs in `data`, in ascending order. -/
def occurrences (data sig : List Nat) : List Nat :=
  occAux sig data 0

/-- Model of Python `data.find(sig, pos)` for a non-empty `sig`: the least
occurrence of `sig` in `data` at an offset `≥ pos` (`none` for `-1`). -/
def pyFind (data sig : List Nat) (pos : Nat) : Option Nat :=
  (occurrences data sig).find? (fun i => decide (pos ≤ i))

/-- The `while` loop of `AndroidForensicTool.carve_files_from_data`
(android_adb_tool.py lines 190-202) for a single signature: repeatedly
`pos = data.find(sig, pos)`, record `pos`, then `pos += len(sig)`.
The loop is written with explicit fuel; `carveLoop_isSome` below shows that
fuel `data.length + 1` always suffices for a non-empty signature. -/
def carveLoop (data sig : List Nat) : Nat → Nat → Option (List Nat)
  | 0, _ => none
  | fuel + 1, pos =>
    match pyFind data sig pos with
    | none => some []
    | some p => (carveLoop data sig fuel (p + sig.length)).map (fun l => p :: l)

/-- The offsets recorded for one signature by the carving scan. -/
def carveOffsets (data sig : List Nat) : List Nat :=
  (carveLoop data sig (data.length + 1) 0).getD []

/-- A candidate match recorded by `carve_files_from_data`: the Python dict
`{'type': file_type, 'offset': pos, 'signature': sig.hex()}`. -/
structure Candidate where
  type : String
  offset : Nat
  signature : List Nat
  deriving DecidableEq, Repr

/-- A signature registry: format tag paired with its alternative magic-byte
patterns, in registration (dict insertion) order. -/
abbrev Registry := List (String × List (List Nat))

namespace AndroidForensicTool

/-- `self.file_signatures` of `AndroidForensicTool` (android_adb_tool.py
lines 23-34), in dict insertion order. -/
def file_signatures : Registry :=
  [ ("jpg", [[0xFF, 0xD8, 0xFF]]),
    ("png", [[0x89, 0x50, 0x4E, 0x47]]),
    ("gif", [[0x47, 0x49, 0x46, 0x38]]),
    ("pdf", [[0x25, 0x50, 0x44, 0x46]]),
    ("zip", [[0x50, 0x4B, 0x03, 0x04]]),
    ("mp4", [[0x00, 0x00, 0x00, 0x18, 0x66, 0x74, 0x79, 0x70],
             [0x00, 0x00, 0x00, 0x1C, 0x66, 0x74, 0x79, 0x70]]),
    ("mp3", [[0x49, 0x44, 0x33], [0xFF, 0xFB]]),
    ("doc", [[0xD0, 0xCF, 0x11, 0xE0]]),
    ("docx", [[0x50, 0x4B, 0x03, 0x04]]),
    ("sqlite", [[0x53, 0x51, 0x4C, 0x69, 0x74, 0x65, 0x20, 0x66,
                 0x6F, 0x72, 0x6D, 0x61, 0x74, 0x20, 0x33]]) ]

end AndroidForensicTool

/-- `carve_files_from_data` (android_adb_tool.py lines 184-204), generalised
over the signature table: for each tag and each of its signatures, in
registration order, record every offset found by the find/advance loop. -/
def carve_files_from_data (signatures : Registry) (data : List Nat) : List Candidate :=
  signatures.flatMap (fun ts =>
    ts.2.flatMap (fun sig =>
      (carveOffsets data sig).map (fun p => Candidate.mk ts.1 p sig)))

/-- Generic body shared by both tools' `detect_file_type`: iterate the tag
table in registration order and return the first tag one of whose signatures
is a prefix of the data; `"unknown"` when none matches. -/
def detectGen (reg : Registry) (data : List Nat) : String :=
  match reg with
  | [] => "unknown"
  | (t, sigs) :: rest =>
    if sigs.any (fun s => s.isPrefixOf data) then t else detectGen rest data

namespace AndroidForensicTool

/-- `AndroidForensicTool.detect_file_type` (android_adb_tool.py lines
176-182): no length guard. -/
def detect_file_type (data : List Nat) : String :=
  detectGen file_signatures data

end AndroidForensicTool

namespace UniversalForensicTool

/-- `self.file_signatures` of `UniversalForensicTool`
(universal_forensic_tool.py lines 28-77), in dict insertion order. -/
def file_signatures : Registry :=
  [ ("jpg", [[0xFF, 0xD8, 0xFF, 0xE0], [0xFF, 0xD8, 0xFF, 0xE1], [0xFF, 0xD8, 0xFF, 0xE2]]),
    ("png", [[0x89, 0x50, 0x4E, 0x47, 0x0D, 0x0A, 0x1A, 0x0A]]),
    ("gif", [[0x47, 0x49, 0x46, 0x38, 0x37, 0x61], [0x47, 0x49, 0x46, 0x38, 0x39, 0x61]]),
    ("bmp", [[0x42, 0x4D]]),
    ("ico", [[0x00, 0x00, 0x01, 0x00]]),
    ("tiff", [[0x49, 0x49, 0x2A, 0x00], [0x4D, 0x4D, 0x00, 0x2A]]),
    ("pdf", [[0x25, 0x50, 0x44, 0x46]]),
    ("doc", [[0xD0, 0xCF, 0x11, 0xE0, 0xA1, 0xB1, 0x1A, 0xE1]]),
    ("docx", [[0x50, 0x4B, 0x03, 0x04]]),
    ("xls", [[0xD0, 0xCF, 0x11, 0xE0, 0xA1, 0xB1, 0x1A, 0xE1]]),
    ("xlsx", [[0x50, 0x4B, 0x03, 0x04]]),
    ("ppt", [[0xD0, 0xCF, 0x11, 0xE0, 0xA1, 0xB1, 0x1A, 0xE1]]),
    ("pptx", [[0x50, 0x4B, 0x03, 0x04]]),
    ("txt", [[0xEF, 0xBB, 0xBF], [0xFF, 0xFE], [0xFE, 0xFF]]),
    ("rtf", [[0x7B, 0x5C, 0x72, 0x74, 0x66]]),
    ("zip", [[0x50, 0x4B, 0x03, 0x04], [0x50, 0x4B, 0x05, 0x06]]),
    ("rar", [[0x52, 0x61, 0x72, 0x21, 0x1A, 0x07]]),
    ("7z", [[0x37, 0x7A, 0xBC, 0xAF, 0x27, 0x1C]]),
    ("tar", [[0x75, 0x73, 0x74, 0x61, 0x72]]),
    ("gz", [[0x1F, 0x8B]]),
    ("mp4", [[0x00, 0x00, 0x00, 0x18, 0x66, 0x74, 0x79, 0x70],
             [0x00, 0x00, 0x00, 0x1C, 0x66, 0x74, 0x79, 0x70]]),
    ("mp3", [[0x49, 0x44, 0x33], [0xFF, 0xFB], [0xFF, 0xF3], [0xFF, 0xF2]]),
    ("wav", [[0x52, 0x49, 0x46, 0x46]]),
    ("avi", [[0x52, 0x49, 0x46, 0x46]]),
    ("mkv", [[0x1A, 0x45, 0xDF, 0xA3]]),
    ("flv", [[0x46, 0x4C, 0x56]]),
    ("mov", [[0x00, 0x00, 0x00, 0x14, 0x66, 0x74, 0x79, 0x70]]),
    ("exe", [[0x4D, 0x5A]]),
    ("dll", [[0x4D, 0x5A]]),
    ("so", [[0x7F, 0x45, 0x4C, 0x46]]),
    ("dmg", [[0x78, 0x01, 0x73, 0x0D, 0x62, 0x62, 0x60]]),
    ("sqlite", [[0x53, 0x51, 0x4C, 0x69, 0x74, 0x65, 0x20, 0x66,
                 0x6F, 0x72, 0x6D, 0x61, 0x74, 0x20, 0x33]]),
    ("mdb", [[0x00, 0x01, 0x00, 0x00, 0x53, 0x74, 0x61, 0x6E, 0x64,
              0x61, 0x72, 0x64, 0x20, 0x4A]]),
    ("pst", [[0x21, 0x42, 0x44, 0x4E]]),
    ("eml", [[0x46, 0x72, 0x6F, 0x6D]]) ]

/-- `self.typical_sizes` of `UniversalForensicTool`
(universal_forensic_tool.py lines 80-87): tag to (min, max) plausible size. -/
def typical_sizes : List (String × Nat × Nat) :=
  [ ("jpg", (10 * 1024, 10 * 1024 * 1024)),
    ("png", (5 * 1024, 5 * 1024 * 1024)),
    ("pdf", (50 * 1024, 50 * 1024 * 1024)),
    ("doc", (20 * 1024, 100 * 1024 * 1024)),
    ("mp4", (100 * 1024, 5 * 1024 * 1024 * 1024)),
    ("mp3", (100 * 1024, 20 * 1024 * 1024)) ]

/-- `UniversalForensicTool.detect_file_type` (universal_forensic_tool.py
lines 234-243): data shorter than 16 bytes is reported `"unknown"` before
any signature is attempted. -/
def detect_file_type (data : List Nat) : String :=
  if data.length < 16 then "unknown" else detectGen file_signatures data

end UniversalForensicTool

/-! ### Generic facts about the occurrence scan -/

lemma isPrefixOf_getElem? {sig l : List Nat} (h : sig.isPrefixOf l = true) :
    ∀ (j b : Nat), sig[j]? = some b → l[j]? = some b := by
  induction sig generalizing l with
  | nil => intro j b hj; simp at hj
  | cons a as ih =>
    cases l with
    | nil => simp [List.isPrefixOf] at h
    | cons c cs =>
      simp only [List.isPrefixOf, Bool.and_eq_true, beq_iff_eq] at h
      obtain ⟨rfl, h2⟩ := h
      intro j b hj
      cases j with
      | zero => simpa using hj
      | succ j => simpa using ih h2 j b (by simpa using hj)

lemma matchAtB_getElem? {data sig : List Nat} {o : Nat} (h : matchAtB data sig o = true) :
    ∀ (j b : Nat), sig[j]? = some b → data[o + j]? = some b := by
  intro j b hj
  simpa [List.getElem?_drop] using isPrefixOf_getElem? h j b hj

lemma lt_length_of_matchAtB {data sig : List Nat} {o : Nat} (hs : sig ≠ [])
    (h : matchAtB data sig o = true) : o < data.length := by
  obtain ⟨a, as, rfl⟩ : ∃ a as, sig = a :: as := by
    cases sig with
    | nil => exact absurd rfl hs
    | cons a as => exact ⟨a, as, rfl⟩
  have h0 : data[o + 0]? = some a := matchAtB_getElem? h 0 a (by simp)
  have := List.getElem?_eq_some.mp (by simpa using h0)
  exact this.1

lemma mem_occAux {sig : List Nat} (hs : sig ≠ []) :
    ∀ (l : List Nat) (i o : Nat),
      o ∈ occAux sig l i ↔ i ≤ o ∧ sig.isPrefixOf (l.drop (o - i)) = true := by
  intro l
  induction l with
  | nil =>
    intro i o
    simp only [occAux, List.not_mem_nil, false_iff, not_and]
    intro _ hpre
    obtain ⟨a, as, rfl⟩ : ∃ a as, sig = a :: as := by
      cases sig with
      | nil => exact absurd rfl hs
      | cons a as => exact ⟨a, as, rfl⟩
    simp [List.isPrefixOf] at hpre
  | cons d ds ih =>
    intro i o
    constructor
    · intro hmem
      by_cases hpre : sig.isPrefixOf (d :: ds) = true
      · simp only [occAux, hpre, if_true, List.mem_cons] at hmem
        rcases hmem with rfl | hmem
        · simpa using hpre
        · obtain ⟨h1, h2⟩ := (ih (i + 1) o).mp hmem
          refine ⟨by omega, ?_⟩
          have : (d :: ds).drop (o - i) = ds.drop (o - (i + 1)) := by
            have : o - i = (o - (i + 1)) + 1 := by omega
            simp [this]
          rw [this]; exact h2
      · simp only [occAux, hpre, if_false] at hmem
        obtain ⟨h1, h2⟩ := (ih (i + 1) o).mp hmem
        refine ⟨by omega, ?_⟩
        have : (d :: ds).drop (o - i) = ds.drop (o - (i + 1)) := by
          have : o - i = (o - (i + 1)) + 1 := by omega
          simp [this]
        rw [this]; exact h2
    · rintro ⟨h1, h2⟩
      rcases Nat.eq_or_lt_of_le h1 with rfl | hlt
      · simp only [Nat.sub_self, List.drop_zero] at h2
        simp [occAux, h2]
      · have hdrop : (d :: ds).drop (o - i) = ds.drop (o - (i + 1)) := by
          have : o - i = (o - (i + 1)) + 1 := by omega
          simp [this]
        have htail : o ∈ occAux sig ds (i + 1) :=
          (ih (i + 1) o).mpr ⟨by omega, by rw [← hdrop]; exact h2⟩
        by_cases hpre : sig.isPrefixOf (d :: ds) = true
        · simp [occAux, hpre, htail]
        · simp [occAux, hpre, htail]

lemma mem_occurrences {data sig : List Nat} (hs : sig ≠ []) {o : Nat} :
    o ∈ occurrences data sig ↔ matchAtB data sig o = true := by
  unfold occurrences matchAtB
  rw [mem_occAux hs data 0 o]
  simp

lemma occAux_pairwise {sig : List Nat} :
    ∀ (l : List Nat) (i : Nat),
      List.Pairwise (· < ·) (occAux sig l i) ∧ ∀ o ∈ occAux sig l i, i ≤ o := by
  intro l
  induction l with
  | nil => intro i; simp [occAux]
  | cons d ds ih =>
    intro i
    obtain ⟨hpw, hge⟩ := ih (i + 1)
    by_cases hpre : sig.isPrefixOf (d :: ds) = true
    · refine ⟨?_, ?_⟩
      · simp only [occAux, hpre, if_true]
        exact List.pairwise_cons.mpr ⟨fun o ho => by have := hge o ho; omega, hpw⟩
      · intro o ho
        simp only [occAux, hpre, if_true, List.mem_cons] at ho
        rcases ho with rfl | ho
        · omega
        · have := hge o ho; omega
    · refine ⟨?_, ?_⟩
      · simpa [occAux, hpre] using hpw
      · intro o ho
        simp only [occAux, hpre, if_false] at ho
        have := hge o ho; omega

lemma occurrences_pairwise (data sig : List Nat) :
    List.Pairwise (· < ·) (occurrences data sig) :=
  (occAux_pairwise data 0).1

/-! ### Facts about `pyFind` (the model of `bytes.find`) -/

lemma pyFind_eq_some {data sig : List Nat} {pos p : Nat}
    (h : pyFind data sig pos = some p) :
    pos ≤ p ∧ p ∈ occurrences data sig := by
  refine ⟨?_, List.mem_of_find?_eq_some h⟩
  have := List.find?_some h
  simpa using this

lemma find?_le_of_sorted {l : List Nat} {pos p : Nat}
    (hl : List.Pairwise (· < ·) l)
    (h : l.find? (fun i => decide (pos ≤ i)) = some p) :
    ∀ o ∈ l, pos ≤ o → p ≤ o := by
  induction l with
  | nil => simp at h
  | cons a t ih =>
    obtain ⟨ha, ht⟩ := List.pairwise_cons.mp hl
    by_cases hpa : pos ≤ a
    · rw [List.find?_cons_of_pos _ (by simpa using hpa)] at h
      obtain rfl : a = p := by simpa using h
      intro o ho _
      rcases List.mem_cons.mp ho with rfl | ho
      · exact Nat.le_refl _
      · exact Nat.le_of_lt (ha o ho)
    · rw [List.find?_cons_of_neg _ (by simpa using hpa)] at h
      intro o ho hpo
      rcases List.mem_cons.mp ho with rfl | ho
      · exact absurd hpo hpa
      · exact ih ht h o ho hpo

lemma pyFind_min {data sig : List Nat} {pos p : Nat}
    (h : pyFind data sig pos = some p) :
    ∀ o ∈ occurrences data sig, pos ≤ o → p ≤ o :=
  find?_le_of_sorted (occurrences_pairwise data sig) h

lemma pyFind_none {data sig : List Nat} {pos : Nat}
    (h : pyFind data sig pos = none) :
    ∀ o ∈ occurrences data sig, o < pos := by
  intro o ho
  have := List.find?_eq_none.mp h o ho
  simpa using Nat.lt_of_not_le (by simpa using this)

lemma pyFind_complete {data sig : List Nat} {pos o : Nat}
    (ho : o ∈ occurrences data sig) (hpo : pos ≤ o) :
    ∃ p, pyFind data sig pos = some p ∧ p ≤ o := by
  cases h : pyFind data sig pos with
  | none => exact absurd hpo (Nat.not_le_of_lt (pyFind_none h o ho))
  | some p => exact ⟨p, rfl, pyFind_min h o ho hpo⟩

/-! ### Facts about the fuelled carving loop -/

lemma sig_length_pos {sig : List Nat} (hs : sig ≠ []) : 1 ≤ sig.length := by
  cases sig with
  | nil => exact absurd rfl hs
  | cons a as => simp

lemma carveLoop_isSome {data sig : List Nat} (hs : sig ≠ []) :
    ∀ (fuel pos : Nat), data.length - pos < fuel →
      ∃ l, carveLoop data sig fuel pos = some l := by
  intro fuel
  induction fuel with
  | zero => intro pos h; omega
  | succ f ih =>
    intro pos h
    cases hf : pyFind data sig pos with
    | none => exact ⟨[], by simp [carveLoop, hf]⟩
    | some p =>
      obtain ⟨hpos, hm⟩ := pyFind_eq_some hf
      have hp : p < data.length :=
        lt_length_of_matchAtB hs ((mem_occurrences hs).mp hm)
      have h1 : 1 ≤ sig.length := sig_length_pos hs
      obtain ⟨l, hl⟩ := ih (p + sig.length) (by omega)
      exact ⟨p :: l, by simp [carveLoop, hf, hl]⟩

lemma carveLoop_mono {data sig : List Nat} :
    ∀ {fuel : Nat} {pos : Nat} {l : List Nat},
      carveLoop data sig fuel pos = some l →
      ∀ {fuel' : Nat}, fuel ≤ fuel' → carveLoop data sig fuel' pos = some l := by
  intro fuel
  induction fuel with
  | zero => intro pos l h; simp [carveLoop] at h
  | succ f ih =>
    intro pos l h fuel' hle
    obtain ⟨f', rfl⟩ : ∃ f', fuel' = f' + 1 := by
      cases fuel' with
      | zero => omega
      | succ f' => exact ⟨f', rfl⟩
    cases hf : pyFind data sig pos with
    | none =>
      simp only [carveLoop, hf] at h ⊢
      exact h
    | some p =>
      simp only [carveLoop, hf, Option.map_eq_some'] at h
      obtain ⟨t, ht, rfl⟩ := h
      simp only [carveLoop, hf, Option.map_eq_some']
      exact ⟨t, ih ht (by omega), rfl⟩

lemma carveLoop_sound {data sig : List Nat} :
    ∀ {fuel pos : Nat} {l : List Nat},
      carveLoop data sig fuel pos = some l →
      (∀ p ∈ l, pos ≤ p ∧ p ∈ occurrences data sig) ∧
        List.Chain' (fun a b => a + sig.length ≤ b) l := by
  intro fuel
  induction fuel with
  | zero => intro pos l h; simp [carveLoop] at h
  | succ f ih =>
    intro pos l h
    cases hf : pyFind data sig pos with
    | none =>
      simp only [carveLoop, hf] at h
      obtain rfl : ([] : List Nat) = l := by simpa using h
      simp
    | some p =>
      simp only [carveLoop, hf, Option.map_eq_some'] at h
      obtain ⟨t, ht, rfl⟩ := h
      obtain ⟨hmem, hchain⟩ := ih ht
      obtain ⟨hpos, hocc⟩ := pyFind_eq_some hf
      refine ⟨?_, ?_⟩
      · intro q hq
        rcases List.mem_cons.mp hq with rfl | hq
        · exact ⟨hpos, hocc⟩
        · exact ⟨Nat.le_trans hpos (Nat.le_trans (Nat.le_add_right p sig.length)
            (hmem q hq).1), (hmem q hq).2⟩
      · refine List.Chain'.cons' hchain ?_
        intro y hy
        have hy' : y ∈ t := List.mem_of_mem_head? hy
        exact (hmem y hy').1

lemma carveLoop_complete {data sig : List Nat} :
    ∀ {fuel pos : Nat} {l : List Nat},
      carveLoop data sig fuel pos = some l →
      ∀ o ∈ occurrences data sig, pos ≤ o →
        o ∈ l ∨ ∃ r ∈ l, r < o ∧ o < r + sig.length := by
  intro fuel
  induction fuel with
  | zero => intro pos l h; simp [carveLoop] at h
  | succ f ih =>
    intro pos l h o ho hpo
    cases hf : pyFind data sig pos with
    | none => exact absurd hpo (Nat.not_le_of_lt (pyFind_none hf o ho))
    | some p =>
      simp only [carveLoop, hf, Option.map_eq_some'] at h
      obtain ⟨t, ht, rfl⟩ := h
      have hple : p ≤ o := pyFind_min hf o ho hpo
      rcases Nat.eq_or_lt_of_le hple with rfl | hplt
      · exact Or.inl (List.mem_cons_self _ _)
      · by_cases hover : o < p + sig.length
        · exact Or.inr ⟨p, List.mem_cons_self _ _, hplt, hover⟩
        · rcases ih ht o ho (Nat.le_of_not_lt hover) with hin | ⟨r, hr, h1, h2⟩
          · exact Or.inl (List.mem_cons_of_mem _ hin)
          · exact Or.inr ⟨r, List.mem_cons_of_mem _ hr, h1, h2⟩

lemma carveOffsets_eq {data sig : List Nat} (hs : sig ≠ []) :
    carveLoop data sig (data.length + 1) 0 = some (carveOffsets data sig) := by
  obtain ⟨l, hl⟩ := @carveLoop_isSome data sig hs (data.length + 1) 0 (by omega)
  rw [carveOffsets, hl]
  simp

/-! ### Model of the filesystem, the tree-mode scan and the recovery pipeline -/

/-- A filesystem node: a regular file (with its content and a readability
flag) or a directory (with a readability flag and its children). -/
inductive FSTree where
  | file (name : String) (content : List Nat) (readable : Bool)
  | dir (name : String) (readable : Bool) (children : List FSTree)

/-- A file as surfaced by the recursive walk. -/
structure FSFile where
  name : String
  content : List Nat
  readable : Bool
  deriving DecidableEq

mutual

/-- The files yielded by `Path.rglob('*')` from a root node, in order.
Following the pathlib semantics `scan_drive_deep` relies on, a directory
that cannot be opened (permission denied) contributes nothing and the walk
continues with its siblings. -/
def rglobFiles : FSTree → List FSFile
  | .file n c r => [⟨n, c, r⟩]
  | .dir _ r cs => if r then rglobList cs else []

/-- Walk of a list of sibling nodes. -/
def rglobList : List FSTree → List FSFile
  | [] => []
  | t :: ts => rglobFiles t ++ rglobList ts

end

/-- One entry of the `found_files` list built by `scan_drive_deep`. -/
structure ScanEntry where
  path : String
  size : Nat
  ftype : String
  deriving DecidableEq

namespace UniversalForensicTool

/-- Phase 1 of `UniversalForensicTool.scan_drive_deep`
(universal_forensic_tool.py lines 356-405): walk the tree, read each
regular file's 32-byte header, detect its type, and record an entry unless
a requested type filter excludes it.  A file whose `stat`/`open` raises
`PermissionError`/`OSError` is skipped (`except ... pass`). -/
def scan_drive_deep (root : FSTree) (file_types : Option (List String)) :
    List ScanEntry :=
  (rglobFiles root).filterMap (fun f =>
    if f.readable then
      let ftype := detect_file_type (f.content.take 32)
      if (match file_types with
          | none => true
          | some ts => ts.contains ftype) then
        some ⟨f.name, f.content.length, ftype⟩
      else none
    else none)

end UniversalForensicTool

mutual

/-- Content of the first file with the given path that the copy in
`recover_file` can read; `none` models `'File not found'` or a raised
copy error. -/
def findFileContent : FSTree → String → Option (List Nat)
  | .file n c r, p => if n == p && r then some c else none
  | .dir _ r cs, p => if r then findInList cs p else none

/-- Path lookup among sibling nodes. -/
def findInList : List FSTree → String → Option (List Nat)
  | [], _ => none
  | t :: ts, p =>
    match findFileContent t p with
    | some c => some c
    | none => findInList ts p

end

/-- A successful result of `recover_file`: the Python dict
`{'success': True, 'source', 'destination', 'hash', 'size'}`, with the
destination path and timestamp elided.  `hash` is the digest of the full
copied content. -/
structure Artifact where
  source : String
  hash : List Nat
  size : Nat
  deriving DecidableEq

namespace UniversalForensicTool

/-- `UniversalForensicTool.recover_file` (universal_forensic_tool.py lines
456-491): copy the source file in full and hash the copied bytes with
SHA-256 (the digest function is the parameter `sha` of the model).  No size
check and no duplicate-hash check is performed. -/
def recover_file (sha : List Nat → List Nat) (fs : FSTree) (path : String) :
    Option Artifact :=
  (findFileContent fs path).map (fun c => ⟨path, sha c, c.length⟩)

/-- The `recovered_files` list built by `main` (universal_forensic_tool.py
lines 793-811): every successful recovery is appended in order; failed
recoveries are dropped.  This list is the catalog of recovered artifacts. -/
def recoverAll (sha : List Nat → List Nat) (fs : FSTree)
    (entries : List ScanEntry) : List Artifact :=
  entries.filterMap (fun e => recover_file sha fs e.path)

end UniversalForensicTool

/-! ### The spec-modelled buffer-mode extraction boundary -/

/-- The offset of the closest candidate match of any tag strictly after
`off`, if any. -/
def nextCandOffset (cands : List Candidate) (off : Nat) : Option Nat :=
  ((cands.map Candidate.offset).filter (fun p => decide (off < p))).min?

/-- The registered maximum plausible size for a tag, from `typical_sizes`. -/
def maxSizeFor (tbl : List (String × Nat × Nat)) (t : String) : Option Nat :=
  (tbl.lookup t).map (fun mm => mm.2)

/-- Modelled from the spec: buffer-mode extraction is not implemented in the
source (`carve_files_from_data` only records candidate offsets), so the
boundary policy of spec section 4.3 is modelled here: extraction length =
min(registered maximum size for the matched tag if present, distance to the
next candidate match of any tag at a higher offset, the hard safety cap
`cap`). -/
def extractionLength (tbl : List (String × Nat × Nat)) (cap : Nat)
    (cands : List Candidate) (c : Candidate) : Nat :=
  let base :=
    match nextCandOffset cands c.offset with
    | some p => min (p - c.offset) cap
    | none => cap
  match maxSizeFor tbl c.type with
  | some m => min m base
  | none => base

/-- Modelled from the spec: the carve is flagged truncated exactly when it
was cut at the safety cap because there was neither a next candidate nor a
registered maximum size (spec section 4.3). -/
def truncatedFlag (tbl : List (String × Nat × Nat)) (cands : List Candidate)
    (c : Candidate) : Bool :=
  (nextCandOffset cands c.offset).isNone && (maxSizeFor tbl c.type).isNone

/-! ### Characterisation of the matcher -/

/-- The tag has a registered signature that matches (prefixes) the window. -/
def tagMatchesB (reg : Registry) (w : List Nat) (t : String) : Bool :=
  reg.any (fun p => p.1 == t && p.2.any (fun s => s.isPrefixOf w))

/-- Registration index of a tag: its position in the signature table. -/
def regIdx (reg : Registry) (t : String) : Nat :=
  reg.findIdx (fun p => p.1 == t)

lemma tagMatchesB_mem_tags {reg : Registry} {w : List Nat} {t : String}
    (h : tagMatchesB reg w t = true) : t ∈ reg.map Prod.fst := by
  simp only [tagMatchesB, List.any_eq_true, Bool.and_eq_true, beq_iff_eq] at h
  obtain ⟨p, hp, rfl, -⟩ := h
  exact List.mem_map.mpr ⟨p, hp, rfl⟩

lemma detectGen_matches {reg : Registry} {w : List Nat} {t : String}
    (hm : tagMatchesB reg w t = true) :
    tagMatchesB reg w (detectGen reg w) = true := by
  induction reg with
  | nil => simp [tagMatchesB] at hm
  | cons p rest ih =>
    obtain ⟨t₁, sg₁⟩ := p
    by_cases hhit : sg₁.any (fun s => s.isPrefixOf w) = true
    · simp [detectGen, hhit, tagMatchesB]
    · have hm' : tagMatchesB rest w t = true := by
        simp only [tagMatchesB, List.any_cons, Bool.or_eq_true,
          Bool.and_eq_true, beq_iff_eq] at hm
        rcases hm with ⟨-, habs⟩ | hm
        · exact absurd habs hhit
        · simpa [tagMatchesB] using hm
      have := ih hm'
      simp only [detectGen, hhit, if_false]
      simp only [tagMatchesB, List.any_cons, Bool.or_eq_true]
      exact Or.inr (by simpa [tagMatchesB] using this)

lemma detectGen_first {reg : Registry} (hnd : (reg.map Prod.fst).Nodup)
    {w : List Nat} {t : String} (hm : tagMatchesB reg w t = true) :
    ∀ t', tagMatchesB reg w t' = true →
      regIdx reg (detectGen reg w) ≤ regIdx reg t' := by
  induction reg with
  | nil => simp [tagMatchesB] at hm
  | cons p rest ih =>
    obtain ⟨t₁, sg₁⟩ := p
    simp only [List.map_cons, List.nodup_cons] at hnd
    obtain ⟨hhead, hnd'⟩ := hnd
    by_cases hhit : sg₁.any (fun s => s.isPrefixOf w) = true
    · intro t' _
      simp [detectGen, hhit, regIdx, List.findIdx_cons]
    · have hstep : ∀ u, tagMatchesB ((t₁, sg₁) :: rest) w u = true →
          tagMatchesB rest w u = true := by
        intro u hu
        simp only [tagMatchesB, List.any_cons, Bool.or_eq_true,
          Bool.and_eq_true, beq_iff_eq] at hu
        rcases hu with ⟨-, habs⟩ | hu
        · exact absurd habs hhit
        · simpa [tagMatchesB] using hu
      have hm' : tagMatchesB rest w t = true := hstep t hm
      have hne : ∀ u, tagMatchesB rest w u = true → t₁ ≠ u := by
        intro u hu hequ
        exact hhead (hequ ▸ tagMatchesB_mem_tags hu)
      intro t' ht'
      have ht'' : tagMatchesB rest w t' = true := hstep t' ht'
      have hd : tagMatchesB rest w (detectGen rest w) = true :=
        detectGen_matches hm'
      have hne1 : (t₁ == detectGen rest w) = false := by
        simpa using hne _ hd
      have hne2 : (t₁ == t') = false := by
        simpa using hne _ ht''
      have hdet : detectGen ((t₁, sg₁) :: rest) w = detectGen rest w := by
        simp [detectGen, hhit]
      rw [hdet]
      have e1 : regIdx ((t₁, sg₁) :: rest) (detectGen rest w)
          = regIdx rest (detectGen rest w) + 1 := by
        simp [regIdx, List.findIdx_cons, hne1]
      have e2 : regIdx ((t₁, sg₁) :: rest) t' = regIdx rest t' + 1 := by
        simp [regIdx, List.findIdx_cons, hne2]
      rw [e1, e2]
      exact Nat.succ_le_succ (ih hnd' hm' t' ht'')

/-- No registered signature of one tag is a strict prefix of a registered
signature of a different tag. -/
def noCrossPrefix (reg : Registry) : Bool :=
  reg.all (fun p => reg.all (fun q =>
    p.1 == q.1 || p.2.all (fun s1 => q.2.all (fun s2 =>
      !(s1.isPrefixOf s2) || s1.length == s2.length))))

lemma noCrossPrefix_spec {reg : Registry} (h : noCrossPrefix reg = true)
    {t1 t2 : String} {sigs1 sigs2 : List (List Nat)} {s1 s2 : List Nat}
    (h1 : (t1, sigs1) ∈ reg) (h2 : (t2, sigs2) ∈ reg)
    (hs1 : s1 ∈ sigs1) (hs2 : s2 ∈ sigs2) (hne : t1 ≠ t2)
    (hp : s1.isPrefixOf s2 = true) : s1.length = s2.length := by
  simp only [noCrossPrefix, List.all_eq_true] at h
  have := h _ h1 _ h2
  rcases Bool.or_eq_true_iff.mp this with heq | hall
  · exact absurd (by simpa using heq) hne
  · simp only [List.all_eq_true] at hall
    have := hall s1 hs1 s2 hs2
    rcases Bool.or_eq_true_iff.mp this with hnp | hlen
    · simp [hp] at hnp
    · simpa using hlen

lemma isPrefixOf_total :
    ∀ (w a b : List Nat), a.isPrefixOf w = true → b.isPrefixOf w = true →
      a.isPrefixOf b = true ∨ b.isPrefixOf a = true := by
  intro w
  induction w with
  | nil =>
    intro a b ha hb
    cases a with
    | nil => exact Or.inl (by simp)
    | cons x xs => simp [List.isPrefixOf] at ha
  | cons c cs ih =>
    intro a b ha hb
    cases a with
    | nil => exact Or.inl (by simp)
    | cons x xs =>
      cases b with
      | nil => exact Or.inr (by simp)
      | cons y ys =>
        simp only [List.isPrefixOf, Bool.and_eq_true, beq_iff_eq] at ha hb
        obtain ⟨rfl, ha2⟩ := ha
        obtain ⟨rfl, hb2⟩ := hb
        rcases ih xs ys ha2 hb2 with h | h
        · exact Or.inl (by simp [List.isPrefixOf, h])
        · exact Or.inr (by simp [List.isPrefixOf, h])

lemma both_match_length_eq {reg : Registry} (hcp : noCrossPrefix reg = true)
    {t1 t2 : String} {sigs1 sigs2 : List (List Nat)} {s1 s2 w : List Nat}
    (h1 : (t1, sigs1) ∈ reg) (h2 : (t2, sigs2) ∈ reg)
    (hs1 : s1 ∈ sigs1) (hs2 : s2 ∈ sigs2) (hne : t1 ≠ t2)
    (hw1 : s1.isPrefixOf w = true) (hw2 : s2.isPrefixOf w = true) :
    s1.length = s2.length := by
  rcases isPrefixOf_total w s1 s2 hw1 hw2 with h | h
  · exact noCrossPrefix_spec hcp h1 h2 hs1 hs2 hne h
  · exact (noCrossPrefix_spec hcp h2 h1 hs2 hs1 (Ne.symm hne) h).symm

/-! ### Decidable facts about the two shipped signature tables -/

lemma android_tags_nodup :
    ((AndroidForensicTool.file_signatures).map Prod.fst).Nodup := by decide

lemma univ_tags_nodup :
    ((UniversalForensicTool.file_signatures).map Prod.fst).Nodup := by decide

lemma android_noCrossPrefix :
    noCrossPrefix AndroidForensicTool.file_signatures = true := by decide

lemma univ_noCrossPrefix :
    noCrossPrefix UniversalForensicTool.file_signatures = true := by decide

lemma univ_unknown_not_tag :
    "unknown" ∉ (UniversalForensicTool.file_signatures).map Prod.fst := by decide

lemma tagMatchesB_intro {reg : Registry} {w : List Nat} {t : String}
    {sigs : List (List Nat)} {s : List Nat} (hmem : (t, sigs) ∈ reg)
    (hs : s ∈ sigs) (hpre : s.isPrefixOf w = true) :
    tagMatchesB reg w t = true := by
  simp only [tagMatchesB, List.any_eq_true, Bool.and_eq_true, beq_iff_eq]
  exact ⟨(t, sigs), hmem, rfl, by
    simp only [List.any_eq_true]; exact ⟨s, hs, hpre⟩⟩

/-! ### Claims C4 and C5: the matching policy -/

/-- C5 counterexample: the 2-byte window consisting exactly of bmp's
registered 2-byte pattern is shorter than the longest registered pattern,
begins with a registered pattern that is no longer than the window, yet the
universal matcher does not match it to its tag: it returns `"unknown"`
because of the 16-byte guard. -/
theorem c5_counterexample :
    ("bmp", [[0x42, 0x4D]]) ∈ UniversalForensicTool.file_signatures ∧
    ([0x42, 0x4D] : List Nat).isPrefixOf [0x42, 0x4D] = true ∧
    UniversalForensicTool.detect_file_type [0x42, 0x4D] = "unknown" ∧
    "unknown" ≠ "bmp" := by decide

/-- C5 (amended): the universal matcher is a total function (it never
raises); every window shorter than 16 bytes — in particular one shorter
than every registered pattern — returns `"unknown"` without any pattern
being attempted, and for a window of at least 16 bytes that begins with a
registered pattern the matcher returns a registered tag, never
`"unknown"`. -/
theorem c5_short_window_behaviour :
    (∀ w : List Nat, w.length < 16 →
        UniversalForensicTool.detect_file_type w = "unknown") ∧
    (∀ (w : List Nat) (t : String) (sigs : List (List Nat)) (s : List Nat),
        16 ≤ w.length → (t, sigs) ∈ UniversalForensicTool.file_signatures →
        s ∈ sigs → s.isPrefixOf w = true →
        UniversalForensicTool.detect_file_type w ≠ "unknown") := by
  constructor
  · intro w hw
    simp [UniversalForensicTool.detect_file_type, hw]
  · intro w t sigs s hw hmem hs hpre
    have hd := detectGen_matches (tagMatchesB_intro hmem hs hpre)
    have hmem' := tagMatchesB_mem_tags hd
    have hne : detectGen UniversalForensicTool.file_signatures w ≠ "unknown" := by
      intro he; rw [he] at hmem'; exact univ_unknown_not_tag hmem'
    rw [UniversalForensicTool.detect_file_type, if_neg (by omega)]
    exact hne

/-- C5 witness: a 12-byte window returns unknown; a 16-byte window starting
with pdf's pattern is matched to a registered tag. -/
theorem c5_short_window_behaviour_witness :
    UniversalForensicTool.detect_file_type [0x25, 0x50, 0x44, 0x46] = "unknown" ∧
    UniversalForensicTool.detect_file_type
        ([0x25, 0x50, 0x44, 0x46] ++ List.replicate 12 0) ≠ "unknown" :=
  ⟨c5_short_window_behaviour.1 [0x25, 0x50, 0x44, 0x46] (by decide),
   c5_short_window_behaviour.2 ([0x25, 0x50, 0x44, 0x46] ++ List.replicate 12 0)
     "pdf" [[0x25, 0x50, 0x44, 0x46]] [0x25, 0x50, 0x44, 0x46]
     (by decide) (by decide) (by decide) (by decide)⟩

/-- C4 counterexample: docx's and zip's patterns (two different registered
tags, equal pattern length, docx registered first) both fully match the
4-byte window, but the universal matcher selects neither tag: it returns
`"unknown"` because the window is shorter than 16 bytes. -/
theorem c4_counterexample :
    ("docx", [[0x50, 0x4B, 0x03, 0x04]]) ∈ UniversalForensicTool.file_signatures ∧
    ("zip", [[0x50, 0x4B, 0x03, 0x04], [0x50, 0x4B, 0x05, 0x06]]) ∈
      UniversalForensicTool.file_signatures ∧
    ([0x50, 0x4B, 0x03, 0x04] : List Nat).isPrefixOf [0x50, 0x4B, 0x03, 0x04] = true ∧
    UniversalForensicTool.detect_file_type [0x50, 0x4B, 0x03, 0x04] = "unknown" ∧
    "unknown" ≠ "docx" ∧ "unknown" ≠ "zip" := by decide

/-- C4 (amended): whenever the patterns of two different registered tags
both fully match a window — for the universal matcher, provided the window
is at least 16 bytes, since shorter windows return unknown — the two
patterns necessarily have equal length (no registered pattern of one tag is
a strict prefix of another tag's pattern, so the longer-pattern case cannot
arise), and the matcher selects the matching tag that was registered first. -/
theorem c4_matching_policy :
    (∀ (w : List Nat) (t1 t2 : String) (sigs1 sigs2 : List (List Nat))
        (p1 p2 : List Nat),
        (t1, sigs1) ∈ AndroidForensicTool.file_signatures →
        (t2, sigs2) ∈ AndroidForensicTool.file_signatures →
        p1 ∈ sigs1 → p2 ∈ sigs2 → t1 ≠ t2 →
        p1.isPrefixOf w = true → p2.isPrefixOf w = true →
        p1.length = p2.length ∧
          tagMatchesB AndroidForensicTool.file_signatures w
            (AndroidForensicTool.detect_file_type w) = true ∧
          ∀ t', tagMatchesB AndroidForensicTool.file_signatures w t' = true →
            regIdx AndroidForensicTool.file_signatures
                (AndroidForensicTool.detect_file_type w) ≤
              regIdx AndroidForensicTool.file_signatures t') ∧
    (∀ (w : List Nat) (t1 t2 : String) (sigs1 sigs2 : List (List Nat))
        (p1 p2 : List Nat),
        16 ≤ w.length →
        (t1, sigs1) ∈ UniversalForensicTool.file_signatures →
        (t2, sigs2) ∈ UniversalForensicTool.file_signatures →
        p1 ∈ sigs1 → p2 ∈ sigs2 → t1 ≠ t2 →
        p1.isPrefixOf w = true → p2.isPrefixOf w = true →
        p1.length = p2.length ∧
          tagMatchesB UniversalForensicTool.file_signatures w
            (UniversalForensicTool.detect_file_type w) = true ∧
          ∀ t', tagMatchesB UniversalForensicTool.file_signatures w t' = true →
            regIdx UniversalForensicTool.file_signatures
                (UniversalForensicTool.detect_file_type w) ≤
              regIdx UniversalForensicTool.file_signatures t') := by
  constructor
  · intro w t1 t2 sigs1 sigs2 p1 p2 h1 h2 hp1 hp2 hne hw1 hw2
    refine ⟨both_match_length_eq android_noCrossPrefix h1 h2 hp1 hp2 hne hw1 hw2,
      ?_, ?_⟩
    · exact detectGen_matches (tagMatchesB_intro h1 hp1 hw1)
    · exact detectGen_first android_tags_nodup (tagMatchesB_intro h1 hp1 hw1)
  · intro w t1 t2 sigs1 sigs2 p1 p2 hlen h1 h2 hp1 hp2 hne hw1 hw2
    have hdet : UniversalForensicTool.detect_file_type w =
        detectGen UniversalForensicTool.file_signatures w := by
      rw [UniversalForensicTool.detect_file_type, if_neg (by omega)]
    rw [hdet]
    refine ⟨both_match_length_eq univ_noCrossPrefix h1 h2 hp1 hp2 hne hw1 hw2,
      ?_, ?_⟩
    · exact detectGen_matches (tagMatchesB_intro h1 hp1 hw1)
    · exact detectGen_first univ_tags_nodup (tagMatchesB_intro h1 hp1 hw1)

/-- C4 witness: for the android matcher, zip and docx share the equal-length
pattern `50 4B 03 04`; zip is registered first and is selected.  For the
universal matcher on a 16-byte window, docx is registered first and is
selected. -/
theorem c4_matching_policy_witness :
    (([0x50, 0x4B, 0x03, 0x04] : List Nat).length = ([0x50, 0x4B, 0x03, 0x04] : List Nat).length ∧
      tagMatchesB AndroidForensicTool.file_signatures [0x50, 0x4B, 0x03, 0x04]
        (AndroidForensicTool.detect_file_type [0x50, 0x4B, 0x03, 0x04]) = true ∧
      ∀ t', tagMatchesB AndroidForensicTool.file_signatures
          [0x50, 0x4B, 0x03, 0x04] t' = true →
        regIdx AndroidForensicTool.file_signatures
            (AndroidForensicTool.detect_file_type [0x50, 0x4B, 0x03, 0x04]) ≤
          regIdx AndroidForensicTool.file_signatures t') ∧
    (([0x50, 0x4B, 0x03, 0x04] : List Nat).length = ([0x50, 0x4B, 0x03, 0x04] : List Nat).length ∧
      tagMatchesB UniversalForensicTool.file_signatures
        ([0x50, 0x4B, 0x03, 0x04] ++ List.replicate 12 0)
        (UniversalForensicTool.detect_file_type
          ([0x50, 0x4B, 0x03, 0x04] ++ List.replicate 12 0)) = true ∧
      ∀ t', tagMatchesB UniversalForensicTool.file_signatures
          ([0x50, 0x4B, 0x03, 0x04] ++ List.replicate 12 0) t' = true →
        regIdx UniversalForensicTool.file_signatures
            (UniversalForensicTool.detect_file_type
              ([0x50, 0x4B, 0x03, 0x04] ++ List.replicate 12 0)) ≤
          regIdx UniversalForensicTool.file_signatures t') :=
  ⟨c4_matching_policy.1 [0x50, 0x4B, 0x03, 0x04] "zip" "docx"
      [[0x50, 0x4B, 0x03, 0x04]] [[0x50, 0x4B, 0x03, 0x04]]
      [0x50, 0x4B, 0x03, 0x04] [0x50, 0x4B, 0x03, 0x04]
      (by decide) (by decide) (by decide) (by decide) (by decide)
      (by decide) (by decide),
   c4_matching_policy.2 ([0x50, 0x4B, 0x03, 0x04] ++ List.replicate 12 0)
      "docx" "zip" [[0x50, 0x4B, 0x03, 0x04]]
      [[0x50, 0x4B, 0x03, 0x04], [0x50, 0x4B, 0x05, 0x06]]
      [0x50, 0x4B, 0x03, 0x04] [0x50, 0x4B, 0x03, 0x04]
      (by decide) (by decide) (by decide) (by decide) (by decide)
      (by decide) (by decide) (by decide)⟩

/-! ### Claims C2, C9 and C10: the buffer-mode scan -/

lemma mem_carveOffsets_matchAtB {data sig : List Nat} {p : Nat}
    (hp : p ∈ carveOffsets data sig) : matchAtB data sig p = true := by
  by_cases hs : sig = []
  · simp [matchAtB, hs]
  · have hcl := @carveOffsets_eq data sig hs
    exact (mem_occurrences hs).mp ((carveLoop_sound hcl).1 p hp).2

lemma carveOffsets_chain (data sig : List Nat) :
    List.Chain' (fun a b => a + sig.length ≤ b) (carveOffsets data sig) := by
  cases h : carveLoop data sig (data.length + 1) 0 with
  | none => simp [carveOffsets, h]
  | some l =>
    have := (carveLoop_sound h).2
    simpa [carveOffsets, h] using this

/-- C9: for every finite byte buffer and every registry whose signature
patterns are all non-empty, the buffer-mode scan terminates: for each
registered pattern the find/advance loop of `carve_files_from_data` breaks
within `data.length + 1` iterations, and its result is stable under any
larger iteration bound. -/
theorem c9_scan_terminates (reg : Registry) (data : List Nat)
    (h : ∀ p ∈ reg, ∀ s ∈ p.2, s ≠ []) :
    ∀ p ∈ reg, ∀ s ∈ p.2,
      (∃ l, carveLoop data s (data.length + 1) 0 = some l) ∧
        ∀ fuel, data.length + 1 ≤ fuel →
          carveLoop data s fuel 0 = carveLoop data s (data.length + 1) 0 := by
  intro p hp s hs
  have hne := h p hp s hs
  refine ⟨@carveLoop_isSome data s hne (data.length + 1) 0 (by omega), ?_⟩
  obtain ⟨l, hl⟩ := @carveLoop_isSome data s hne (data.length + 1) 0 (by omega)
  intro fuel hf
  rw [hl, carveLoop_mono hl hf]

/-- C9 witness: the android registry's patterns are all non-empty, and on a
concrete 3-byte buffer the jpg loop completes within 4 iterations with a
result stable at fuel 10. -/
theorem c9_scan_terminates_witness :
    (∃ l, carveLoop [0xFF, 0xD8, 0xFF] [0xFF, 0xD8, 0xFF] 4 0 = some l) ∧
      carveLoop [0xFF, 0xD8, 0xFF] [0xFF, 0xD8, 0xFF] 10 0 =
        carveLoop [0xFF, 0xD8, 0xFF] [0xFF, 0xD8, 0xFF] 4 0 :=
  ⟨(c9_scan_terminates AndroidForensicTool.file_signatures [0xFF, 0xD8, 0xFF]
      (by decide) ("jpg", [[0xFF, 0xD8, 0xFF]]) (by decide) [0xFF, 0xD8, 0xFF]
      (by decide)).1,
   (c9_scan_terminates AndroidForensicTool.file_signatures [0xFF, 0xD8, 0xFF]
      (by decide) ("jpg", [[0xFF, 0xD8, 0xFF]]) (by decide) [0xFF, 0xD8, 0xFF]
      (by decide)).2 10 (by decide)⟩

/-- C10 counterexample: the pattern `50 4B 03 04` is registered under both
zip and docx in the android table, so the scan of the buffer consisting of
exactly those four bytes reports two candidates with this fixed signature
pattern, both at offset 0 — the offsets for a fixed pattern are not
strictly increasing. -/
theorem c10_counterexample :
    ((carve_files_from_data AndroidForensicTool.file_signatures
          [0x50, 0x4B, 0x03, 0x04]).filter
        (fun c => c.signature == [0x50, 0x4B, 0x03, 0x04])).map Candidate.offset
      = [0, 0] ∧
    ¬ List.Chain' (fun a b : Nat => a < b) [0, 0] :=
  ⟨by decide, by simp [List.chain'_cons]⟩

/-- C10 (amended): every candidate produced by the buffer-mode scan is
sound — the buffer bytes starting at its offset equal its signature
pattern — and for each registered (tag, pattern) pair the offsets reported
by the per-pattern scan are increasing with successive offsets differing by
at least the pattern length (a pattern registered under several tags is
scanned once per tag, so its offsets repeat across tags). -/
theorem c10_candidates_sound_ordered (reg : Registry) (data : List Nat) :
    (∀ c ∈ carve_files_from_data reg data,
        c.signature.isPrefixOf (data.drop c.offset) = true ∧
          c.offset ∈ carveOffsets data c.signature) ∧
    ∀ sig : List Nat,
      List.Chain' (fun a b => a + sig.length ≤ b) (carveOffsets data sig) := by
  refine ⟨?_, fun sig => carveOffsets_chain data sig⟩
  intro c hc
  simp only [carve_files_from_data, List.mem_flatMap, List.mem_map] at hc
  obtain ⟨ts, -, sig, -, p, hp, rfl⟩ := hc
  exact ⟨mem_carveOffsets_matchAtB hp, hp⟩

/-- C2 counterexample: the android jpg pattern `FF D8 FF` occurs at offsets
0 and 2 of the buffer `FF D8 FF D8 FF` (overlapping occurrences spaced
2 < 3 apart), but the scan reports only offset 0 for jpg: not every
occurrence yields a candidate. -/
theorem c2_counterexample :
    matchAtB [0xFF, 0xD8, 0xFF, 0xD8, 0xFF] [0xFF, 0xD8, 0xFF] 2 = true ∧
    ((carve_files_from_data AndroidForensicTool.file_signatures
          [0xFF, 0xD8, 0xFF, 0xD8, 0xFF]).filter
        (fun c => c.type == "jpg")).map Candidate.offset = [0] ∧
    (2 : Nat) ∉ ([0] : List Nat) := by decide

/-- C2 (amended): the scan starts at offset 0 and advances by 1 byte on a
miss and by the pattern length after a match, so occurrences of the same
pattern that overlap a reported candidate (start less than the pattern
length after it) are skipped; every occurrence of a non-empty registered
pattern is either reported as a candidate or overlaps a reported candidate
at a strictly lower offset. -/
theorem c2_scan_reports_occurrences (data sig : List Nat) (hs : sig ≠ [])
    (o : Nat) (ho : sig.isPrefixOf (data.drop o) = true) :
    o ∈ carveOffsets data sig ∨
      ∃ r ∈ carveOffsets data sig, r < o ∧ o < r + sig.length := by
  have hocc : o ∈ occurrences data sig :=
    (mem_occurrences hs).mpr (by simpa [matchAtB] using ho)
  exact carveLoop_complete (@carveOffsets_eq data sig hs) o hocc
    (Nat.zero_le o)

/-- C2 witness: the overlapped occurrence at offset 2 of the buffer
`FF D8 FF D8 FF` falls within the reported candidate at offset 0. -/
theorem c2_scan_reports_occurrences_witness :
    2 ∈ carveOffsets [0xFF, 0xD8, 0xFF, 0xD8, 0xFF] [0xFF, 0xD8, 0xFF] ∨
      ∃ r ∈ carveOffsets [0xFF, 0xD8, 0xFF, 0xD8, 0xFF] [0xFF, 0xD8, 0xFF],
        r < 2 ∧ 2 < r + ([0xFF, 0xD8, 0xFF] : List Nat).length :=
  c2_scan_reports_occurrences [0xFF, 0xD8, 0xFF, 0xD8, 0xFF]
    [0xFF, 0xD8, 0xFF] (by decide) 2 (by decide)

/-! ### Claims C7, C8, C3 and C6: the tree-mode scan and recovery pipeline -/

/-- C7: during a tree-mode scan, a subdirectory that cannot be opened
(permission denied) and a file that cannot be read are skipped without
aborting and without surfacing an error: the scan result is exactly the
result of scanning the tree without the unreadable node, so files in
sibling readable subtrees are still discovered. -/
theorem c7_permission_denied_skipped :
    ∀ (nm bn fn : String) (bcs cs : List FSTree) (c : List Nat)
      (fts : Option (List String)),
      UniversalForensicTool.scan_drive_deep
          (.dir nm true (.dir bn false bcs :: cs)) fts =
        UniversalForensicTool.scan_drive_deep (.dir nm true cs) fts ∧
      UniversalForensicTool.scan_drive_deep
          (.dir nm true (.file fn c false :: cs)) fts =
        UniversalForensicTool.scan_drive_deep (.dir nm true cs) fts := by
  intro nm bn fn bcs cs c fts
  constructor
  · simp [UniversalForensicTool.scan_drive_deep, rglobFiles, rglobList]
  · simp [UniversalForensicTool.scan_drive_deep, rglobFiles, rglobList]

/-- C8 counterexample: a readable zero-byte file is recovered and
catalogued (size 0), not dropped: `recover_file` performs no size check. -/
theorem c8_counterexample :
    UniversalForensicTool.recoverAll (fun c => c)
        (.dir "r" true [.file "empty" [] true])
        (UniversalForensicTool.scan_drive_deep
          (.dir "r" true [.file "empty" [] true]) none)
      = [⟨"empty", [], 0⟩] ∧
    (Artifact.mk "empty" [] 0).size = 0 := by decide

/-- C8 (amended): recovery performs no size filtering at all — a readable
file of any content, including empty content and content below the tag's
registered minimum size, is recovered successfully and catalogued. -/
theorem c8_no_minimum_size_check :
    ∀ (sha : List Nat → List Nat) (rn n : String) (c : List Nat),
      UniversalForensicTool.recoverAll sha (.dir rn true [.file n c true])
          (UniversalForensicTool.scan_drive_deep
            (.dir rn true [.file n c true]) none)
        = [⟨n, sha c, c.length⟩] := by
  intro sha rn n c
  simp [UniversalForensicTool.recoverAll, UniversalForensicTool.scan_drive_deep,
    UniversalForensicTool.recover_file, rglobFiles, rglobList,
    findFileContent, findInList]

/-- C3 counterexample: two files with identical bytes produce two catalog
entries whose content hashes are equal — a given content hash can appear in
more than one entry, and the same bytes fed twice yield two entries, not
one. -/
theorem c3_counterexample :
    UniversalForensicTool.recoverAll (fun c => c)
        (.dir "r" true [.file "a" [1, 2, 3] true, .file "b" [1, 2, 3] true])
        (UniversalForensicTool.scan_drive_deep
          (.dir "r" true [.file "a" [1, 2, 3] true, .file "b" [1, 2, 3] true])
          none)
      = [⟨"a", [1, 2, 3], 3⟩, ⟨"b", [1, 2, 3], 3⟩] ∧
    (Artifact.mk "a" [1, 2, 3] 3).hash = (Artifact.mk "b" [1, 2, 3] 3).hash := by
  decide

/-- C3 (amended): the catalog performs no hash-based deduplication: every
successful recovery appends an entry, so feeding the same byte content
through the pipeline twice yields two catalog entries carrying the same
content hash. -/
theorem c3_no_dedup :
    ∀ (sha : List Nat → List Nat) (rn n1 n2 : String) (c : List Nat),
      (UniversalForensicTool.recoverAll sha
          (.dir rn true [.file n1 c true, .file n2 c true])
          (UniversalForensicTool.scan_drive_deep
            (.dir rn true [.file n1 c true, .file n2 c true]) none)).map
          Artifact.hash = [sha c, sha c] := by
  intro sha rn n1 n2 c
  by_cases hnn : n1 = n2
  · subst hnn
    simp [UniversalForensicTool.recoverAll,
      UniversalForensicTool.scan_drive_deep,
      UniversalForensicTool.recover_file, rglobFiles, rglobList,
      findFileContent, findInList]
  · simp [UniversalForensicTool.recoverAll,
      UniversalForensicTool.scan_drive_deep,
      UniversalForensicTool.recover_file, rglobFiles, rglobList,
      findFileContent, findInList, hnn]

/-- The PNG magic bytes `89 50 4E 47 0D 0A 1A 0A`. -/
def pngMagic : List Nat := [0x89, 0x50, 0x4E, 0x47, 0x0D, 0x0A, 0x1A, 0x0A]

lemma detectGen_png (r : List Nat) :
    detectGen UniversalForensicTool.file_signatures (pngMagic ++ r) = "png" := by
  simp [detectGen, UniversalForensicTool.file_signatures, pngMagic,
    List.isPrefixOf]

/-- C6 counterexample: a directory with one file consisting of exactly the
PNG magic bytes and empty further content yields one entry tagged
`"unknown"`, not `"png"`: the 8-byte header falls under the matcher's
16-byte guard. -/
theorem c6_counterexample :
    UniversalForensicTool.scan_drive_deep
        (.dir "r" true
          [.file "f" [0x89, 0x50, 0x4E, 0x47, 0x0D, 0x0A, 0x1A, 0x0A] true])
        none
      = [⟨"f", 8, "unknown"⟩] ∧
    "unknown" ≠ "png" := by decide

/-- C6 (amended): for a regular readable file whose content is the PNG
magic bytes followed by at least 8 further bytes (so that the 32-byte
header read is at least 16 bytes long), a tree-mode scan of a directory
containing exactly that file produces exactly one entry tagged `"png"`, and
recovering it yields exactly one catalog entry whose content hash is the
digest of the full file content. -/
theorem c6_png_tree_scan (sha : List Nat → List Nat) (rn n : String)
    (rest : List Nat) (hrest : 8 ≤ rest.length) :
    UniversalForensicTool.scan_drive_deep
        (.dir rn true [.file n (pngMagic ++ rest) true]) none
      = [⟨n, (pngMagic ++ rest).length, "png"⟩] ∧
    UniversalForensicTool.recoverAll sha
        (.dir rn true [.file n (pngMagic ++ rest) true])
        (UniversalForensicTool.scan_drive_deep
          (.dir rn true [.file n (pngMagic ++ rest) true]) none)
      = [⟨n, sha (pngMagic ++ rest), (pngMagic ++ rest).length⟩] := by
  have htake : (pngMagic ++ rest).take 32 = pngMagic ++ rest.take 24 := by
    rw [List.take_append_eq_append_take]
    simp [pngMagic]
  have hlen : ¬ ((pngMagic ++ rest).take 32).length < 16 := by
    rw [htake]
    simp only [List.length_append, List.length_take, pngMagic]
    simp only [List.length_cons, List.length_nil]
    omega
  have hdet : UniversalForensicTool.detect_file_type
      ((pngMagic ++ rest).take 32) = "png" := by
    rw [UniversalForensicTool.detect_file_type, if_neg hlen, htake,
      detectGen_png]
  constructor
  · simp [UniversalForensicTool.scan_drive_deep, rglobFiles, rglobList, hdet]
  · simp [UniversalForensicTool.recoverAll,
      UniversalForensicTool.scan_drive_deep,
      UniversalForensicTool.recover_file, rglobFiles, rglobList,
      findFileContent, findInList, hdet]

/-- C6 witness: the concrete file `PNG magic ++ 8 zero bytes` is scanned as
one png entry and recovered as one catalog entry hashing the full content. -/
theorem c6_png_tree_scan_witness :
    UniversalForensicTool.scan_drive_deep
        (.dir "r" true [.file "f" (pngMagic ++ List.replicate 8 0) true]) none
      = [⟨"f", (pngMagic ++ List.replicate 8 0).length, "png"⟩] ∧
    UniversalForensicTool.recoverAll (fun c => c)
        (.dir "r" true [.file "f" (pngMagic ++ List.replicate 8 0) true])
        (UniversalForensicTool.scan_drive_deep
          (.dir "r" true [.file "f" (pngMagic ++ List.replicate 8 0) true])
          none)
      = [⟨"f", pngMagic ++ List.replicate 8 0,
          (pngMagic ++ List.replicate 8 0).length⟩] :=
  c6_png_tree_scan (fun c => c) "r" "f" (List.replicate 8 0) (by decide)

/-! ### Claim C1: the buffer-mode extraction boundary -/

/-- The buffer of the claimed scenario: the android jpg signature at offset
100 and the png signature at offset 5000, zero filler elsewhere. -/
def c1buffer : List Nat :=
  List.replicate 100 0 ++ [0xFF, 0xD8, 0xFF] ++ List.replicate 4897 0 ++
    [0x89, 0x50, 0x4E, 0x47] ++ List.replicate 6 0

/-- The byte of `c1buffer` at an offset, as a closed-form function. -/
def c1byte (o : Nat) : Nat :=
  if o = 100 then 0xFF else if o = 101 then 0xD8 else if o = 102 then 0xFF
  else if o = 5000 then 0x89 else if o = 5001 then 0x50
  else if o = 5002 then 0x4E else if o = 5003 then 0x47 else 0

lemma c1buffer_length : c1buffer.length = 5010 := by
  rw [c1buffer]
  simp only [List.length_append, List.length_replicate, List.length_cons,
    List.length_nil]

set_option maxHeartbeats 2000000 in
lemma c1buffer_getElem? (o : Nat) :
    c1buffer[o]? = if o < 5010 then some (c1byte o) else none := by
  rw [c1buffer]
  rw [List.getElem?_append, List.getElem?_append, List.getElem?_append,
    List.getElem?_append]
  simp only [List.length_append, List.length_replicate, List.length_cons,
    List.length_nil, List.getElem?_replicate, List.getElem?_cons, c1byte]
  norm_num
  split_ifs <;> first | rfl | omega

lemma isPrefixOf_of_getElem? :
    ∀ (sig l : List Nat), (∀ j, j < sig.length → l[j]? = sig[j]?) →
      sig.isPrefixOf l = true := by
  intro sig
  induction sig with
  | nil => intro l _; simp
  | cons a as ih =>
    intro l h
    have h0 : l[0]? = some a := by simpa using h 0 (by simp)
    cases l with
    | nil => simp at h0
    | cons b bs =>
      have hb : b = a := by simpa using h0
      subst hb
      have htail : ∀ j, j < as.length → bs[j]? = as[j]? := by
        intro j hj
        simpa using h (j + 1) (by simpa using Nat.succ_lt_succ hj)
      simp [List.isPrefixOf, ih bs htail]

lemma matchAtB_of_getElem? {data sig : List Nat} {o : Nat}
    (h : ∀ j, j < sig.length → data[o + j]? = sig[j]?) :
    matchAtB data sig o = true := by
  unfold matchAtB
  apply isPrefixOf_of_getElem?
  intro j hj
  rw [List.getElem?_drop]
  exact h j hj

lemma pairwise_eq_singleton {l : List Nat} {a : Nat}
    (hp : List.Pairwise (· < ·) l) (hmem : a ∈ l) (hall : ∀ x ∈ l, x = a) :
    l = [a] := by
  cases l with
  | nil => simp at hmem
  | cons x xs =>
    have hx : x = a := hall x (List.mem_cons_self x xs)
    cases xs with
    | nil => rw [hx]
    | cons y ys =>
      have hy : y = a := hall y (by simp)
      have hlt : x < y := (List.pairwise_cons.mp hp).1 y (by simp)
      exact absurd hlt (by omega)

lemma occurrences_singleton {data sig : List Nat} (hs : sig ≠ []) {o₀ : Nat}
    (h₀ : matchAtB data sig o₀ = true)
    (huniq : ∀ o, matchAtB data sig o = true → o = o₀) :
    occurrences data sig = [o₀] :=
  pairwise_eq_singleton (occurrences_pairwise data sig)
    ((mem_occurrences hs).mpr h₀)
    (fun x hx => huniq x ((mem_occurrences hs).mp hx))

lemma occurrences_nil_of_byte {data sig : List Nat} (hs : sig ≠ []) {j b : Nat}
    (hj : sig[j]? = some b) (hb : ∀ o, data[o + j]? ≠ some b) :
    occurrences data sig = [] := by
  rw [List.eq_nil_iff_forall_not_mem]
  intro o ho
  exact hb o (matchAtB_getElem? ((mem_occurrences hs).mp ho) j b hj)

lemma c1buffer_no_byte {b : Nat}
    (hb : b ∉ ([0, 0xFF, 0xD8, 0x89, 0x50, 0x4E, 0x47] : List Nat)) :
    ∀ i : Nat, c1buffer[i]? ≠ some b := by
  intro i h
  rw [c1buffer_getElem?] at h
  by_cases hi : i < 5010
  · rw [if_pos hi] at h
    have hcb : c1byte i = b := by simpa using h
    simp only [List.mem_cons, List.not_mem_nil, or_false, not_or] at hb
    unfold c1byte at hcb
    split_ifs at hcb <;> omega
  · rw [if_neg hi] at h; simp at h

lemma c1buffer_byte216 : ∀ i, c1buffer[i]? = some 0xD8 → i = 101 := by
  intro i h
  rw [c1buffer_getElem?] at h
  by_cases hi : i < 5010
  · rw [if_pos hi] at h
    have hcb : c1byte i = 0xD8 := by simpa using h
    unfold c1byte at hcb
    split_ifs at hcb <;> omega
  · rw [if_neg hi] at h; simp at h

lemma c1buffer_byte137 : ∀ i, c1buffer[i]? = some 0x89 → i = 5000 := by
  intro i h
  rw [c1buffer_getElem?] at h
  by_cases hi : i < 5010
  · rw [if_pos hi] at h
    have hcb : c1byte i = 0x89 := by simpa using h
    unfold c1byte at hcb
    split_ifs at hcb <;> omega
  · rw [if_neg hi] at h; simp at h

lemma c1occ_jpg : occurrences c1buffer [0xFF, 0xD8, 0xFF] = [100] := by
  apply occurrences_singleton (by decide)
  · apply matchAtB_of_getElem?
    intro j hj
    simp only [List.length_cons, List.length_nil] at hj
    interval_cases j <;> simp [c1buffer_getElem?, c1byte]
  · intro o h
    have h1 : c1buffer[o + 1]? = some 0xD8 :=
      matchAtB_getElem? h 1 0xD8 (by decide)
    have := c1buffer_byte216 _ h1
    omega

lemma c1occ_png : occurrences c1buffer [0x89, 0x50, 0x4E, 0x47] = [5000] := by
  apply occurrences_singleton (by decide)
  · apply matchAtB_of_getElem?
    intro j hj
    simp only [List.length_cons, List.length_nil] at hj
    interval_cases j <;> simp [c1buffer_getElem?, c1byte]
  · intro o h
    have h1 : c1buffer[o + 0]? = some 0x89 :=
      matchAtB_getElem? h 0 0x89 (by decide)
    have := c1buffer_byte137 _ h1
    omega

lemma c1occ_gif : occurrences c1buffer [0x47, 0x49, 0x46, 0x38] = [] :=
  occurrences_nil_of_byte (by decide) (j := 1) (b := 0x49) (by decide)
    (fun o => c1buffer_no_byte (by decide) (o + 1))

lemma c1occ_pdf : occurrences c1buffer [0x25, 0x50, 0x44, 0x46] = [] :=
  occurrences_nil_of_byte (by decide) (j := 0) (b := 0x25) (by decide)
    (fun o => c1buffer_no_byte (by decide) (o + 0))

lemma c1occ_zip : occurrences c1buffer [0x50, 0x4B, 0x03, 0x04] = [] :=
  occurrences_nil_of_byte (by decide) (j := 1) (b := 0x4B) (by decide)
    (fun o => c1buffer_no_byte (by decide) (o + 1))

lemma c1occ_mp4a :
    occurrences c1buffer [0x00, 0x00, 0x00, 0x18, 0x66, 0x74, 0x79, 0x70] = [] :=
  occurrences_nil_of_byte (by decide) (j := 3) (b := 0x18) (by decide)
    (fun o => c1buffer_no_byte (by decide) (o + 3))

lemma c1occ_mp4b :
    occurrences c1buffer [0x00, 0x00, 0x00, 0x1C, 0x66, 0x74, 0x79, 0x70] = [] :=
  occurrences_nil_of_byte (by decide) (j := 3) (b := 0x1C) (by decide)
    (fun o => c1buffer_no_byte (by decide) (o + 3))

lemma c1occ_mp3a : occurrences c1buffer [0x49, 0x44, 0x33] = [] :=
  occurrences_nil_of_byte (by decide) (j := 0) (b := 0x49) (by decide)
    (fun o => c1buffer_no_byte (by decide) (o + 0))

lemma c1occ_mp3b : occurrences c1buffer [0xFF, 0xFB] = [] :=
  occurrences_nil_of_byte (by decide) (j := 1) (b := 0xFB) (by decide)
    (fun o => c1buffer_no_byte (by decide) (o + 1))

lemma c1occ_doc : occurrences c1buffer [0xD0, 0xCF, 0x11, 0xE0] = [] :=
  occurrences_nil_of_byte (by decide) (j := 0) (b := 0xD0) (by decide)
    (fun o => c1buffer_no_byte (by decide) (o + 0))

lemma c1occ_sqlite :
    occurrences c1buffer [0x53, 0x51, 0x4C, 0x69, 0x74, 0x65, 0x20, 0x66,
      0x6F, 0x72, 0x6D, 0x61, 0x74, 0x20, 0x33] = [] :=
  occurrences_nil_of_byte (by decide) (j := 0) (b := 0x53) (by decide)
    (fun o => c1buffer_no_byte (by decide) (o + 0))

lemma carveOffsets_of_occ_nil {data sig : List Nat}
    (h : occurrences data sig = []) : carveOffsets data sig = [] := by
  simp [carveOffsets, carveLoop, pyFind, h]

lemma carveLoop_singleton {data sig : List Nat} {o₀ : Nat} (hs : 1 ≤ sig.length)
    (h : occurrences data sig = [o₀]) :
    ∀ fuel pos, 2 ≤ fuel → pos ≤ o₀ →
      carveLoop data sig fuel pos = some [o₀] := by
  intro fuel pos h2 hp
  obtain ⟨f, rfl⟩ : ∃ f, fuel = (f + 1) + 1 := ⟨fuel - 2, by omega⟩
  have hfind : pyFind data sig pos = some o₀ := by
    simp [pyFind, h, hp]
  have hfind2 : pyFind data sig (o₀ + sig.length) = none := by
    simp only [pyFind, h, List.find?_cons]
    have : ¬ (o₀ + sig.length ≤ o₀) := by omega
    simp [this]
  simp [carveLoop, hfind, hfind2]

lemma carveOffsets_singleton {data sig : List Nat} {o₀ : Nat}
    (hs : 1 ≤ sig.length) (h : occurrences data sig = [o₀]) :
    carveOffsets data sig = [o₀] := by
  have hne : sig ≠ [] := by
    cases sig with
    | nil => simp at hs
    | cons a as => simp
  have ho : o₀ ∈ occurrences data sig := by rw [h]; simp
  have hlt : o₀ < data.length :=
    lt_length_of_matchAtB hne ((mem_occurrences hne).mp ho)
  rw [carveOffsets,
    carveLoop_singleton hs h (data.length + 1) 0 (by omega) (Nat.zero_le _)]
  rfl

lemma c1off_jpg : carveOffsets c1buffer [0xFF, 0xD8, 0xFF] = [100] :=
  carveOffsets_singleton (by decide) c1occ_jpg

lemma c1off_png : carveOffsets c1buffer [0x89, 0x50, 0x4E, 0x47] = [5000] :=
  carveOffsets_singleton (by decide) c1occ_png

/-- The scan of the scenario buffer yields exactly the jpg candidate at
offset 100 and the png candidate at offset 5000. -/
lemma c1_carve_eq :
    carve_files_from_data AndroidForensicTool.file_signatures c1buffer =
      [Candidate.mk "jpg" 100 [0xFF, 0xD8, 0xFF],
       Candidate.mk "png" 5000 [0x89, 0x50, 0x4E, 0x47]] := by
  rw [carve_files_from_data]
  simp [AndroidForensicTool.file_signatures, c1off_jpg, c1off_png,
    carveOffsets_of_occ_nil c1occ_gif, carveOffsets_of_occ_nil c1occ_pdf,
    carveOffsets_of_occ_nil c1occ_zip, carveOffsets_of_occ_nil c1occ_mp4a,
    carveOffsets_of_occ_nil c1occ_mp4b, carveOffsets_of_occ_nil c1occ_mp3a,
    carveOffsets_of_occ_nil c1occ_mp3b, carveOffsets_of_occ_nil c1occ_doc,
    carveOffsets_of_occ_nil c1occ_sqlite]

/-- C1: spec-modelled extraction boundary.  In the scenario buffer (jpg
signature at offset 100, png signature at offset 5000, scanned by the
source's `carve_files_from_data`), the jpg candidate's extraction length
under the spec's boundary policy equals
min(jpg registered maximum, distance 4900 to the next candidate, cap) =
4900 for any safety cap of at least 4900; 4900 is at most the jpg
registered maximum, and the carve is not flagged truncated. -/
theorem c1_extraction_length (cap : Nat) (hcap : 4900 ≤ cap) :
    ∃ c ∈ carve_files_from_data AndroidForensicTool.file_signatures c1buffer,
      c.type = "jpg" ∧ c.offset = 100 ∧
      extractionLength UniversalForensicTool.typical_sizes cap
          (carve_files_from_data AndroidForensicTool.file_signatures c1buffer) c
        = 4900 ∧
      4900 ≤ (maxSizeFor UniversalForensicTool.typical_sizes "jpg").getD 0 ∧
      truncatedFlag UniversalForensicTool.typical_sizes
          (carve_files_from_data AndroidForensicTool.file_signatures c1buffer) c
        = false := by
  refine ⟨Candidate.mk "jpg" 100 [0xFF, 0xD8, 0xFF], ?_, rfl, rfl, ?_, ?_, ?_⟩
  · rw [c1_carve_eq]; simp
  · rw [c1_carve_eq]
    have hnext : nextCandOffset
        [Candidate.mk "jpg" 100 [0xFF, 0xD8, 0xFF],
         Candidate.mk "png" 5000 [0x89, 0x50, 0x4E, 0x47]] 100 = some 5000 := by
      decide
    rw [extractionLength]
    simp only [hnext]
    have hmax : maxSizeFor UniversalForensicTool.typical_sizes "jpg" =
        some 10485760 := by decide
    simp only [hmax]
    rw [Nat.min_eq_left hcap, Nat.min_eq_right (by omega)]
  · decide
  · rw [c1_carve_eq]
    decide

/-- C1 witness: the scenario evaluated at the concrete safety cap 2^20. -/
theorem c1_extraction_length_witness :
    ∃ c ∈ carve_files_from_data AndroidForensicTool.file_signatures c1buffer,
      c.type = "jpg" ∧ c.offset = 100 ∧
      extractionLength UniversalForensicTool.typical_sizes 1048576
          (carve_files_from_data AndroidForensicTool.file_signatures c1buffer) c
        = 4900 ∧
      4900 ≤ (maxSizeFor UniversalForensicTool.typical_sizes "jpg").getD 0 ∧
      truncatedFlag UniversalForensicTool.typical_sizes
          (carve_files_from_data AndroidForensicTool.file_signatures c1buffer) c
        = false :=
  c1_extraction_length 1048576 (by decide)
